import Mathlib

/-!
Shallow embedding of `src/main.rs` of the `rebuild` file-watcher utility.

The program parses a flat command line into a chain of simple commands
separated by the bare tokens `;`, `&&`, `||`, substitutes the changed
file path for the placeholder (the two characters with codes 123 and
125, i.e. an opening and a closing curly brace) in command arguments,
and executes the chain with shell-like gating semantics.  Process
spawning, the filesystem watcher and the manager thread are external
effects; they are modelled by explicit oracles (a per-position spawn
outcome, a list of incoming watch events, a list of channel messages).
-/

/-- Rust `enum ProceedIf { Any, Success, Failure }` (`main.rs:29-34`). -/
inductive ProceedIf
  | Any
  | Success
  | Failure
deriving DecidableEq, Repr

/-- Rust `enum CommandParseError { EmptyCommand }` (`main.rs:36-39`). -/
inductive CommandParseError
  | EmptyCommand
deriving DecidableEq, Repr

/-- Rust `struct SimpleCommand` (`main.rs:41-46`): executable name,
argument list, and the gating rule attached by the parser. -/
structure SimpleCommand where
  command : String
  args : List String
  proceed_if : ProceedIf
deriving DecidableEq, Repr

/-- Rust `SimpleCommand::new` (`main.rs:49-65`): an empty token list is
`EmptyCommand`; otherwise the first token is the executable and the
rest are the arguments. -/
def SimpleCommand.new : List String → ProceedIf → Except CommandParseError SimpleCommand
  | [], _ => Except.error CommandParseError.EmptyCommand
  | c :: rest, proceed_if => Except.ok { command := c, args := rest, proceed_if }

/-- The opening curly brace character (code 123), first character of the
placeholder token of the Rust source. -/
def lbrace : Char := Char.ofNat 123

/-- The closing curly brace character (code 125), second character of the
placeholder token of the Rust source. -/
def rbrace : Char := Char.ofNat 125

/-- Rust `str::replace(placeholder, rep)` specialised to the two-character
placeholder: scan left to right, replacing each non-overlapping
occurrence of `lbrace :: rbrace` by `rep`. -/
def replaceBraces (rep : List Char) : List Char → List Char
  | [] => []
  | [c] => [c]
  | a :: b :: rest =>
    if a = lbrace ∧ b = rbrace then rep ++ replaceBraces rep rest
    else a :: replaceBraces rep (b :: rest)

/-- String-level wrapper of `replaceBraces`, applied to one argument. -/
def replaceArg (path : String) (arg : String) : String :=
  String.mk (replaceBraces path.data arg.data)

/-- Rust `SimpleCommand::set_filename` (`main.rs:67-71`): replace the
placeholder in every argument; the executable name is untouched. -/
def SimpleCommand.set_filename (c : SimpleCommand) (path : String) : SimpleCommand :=
  { c with args := c.args.map (replaceArg path) }

/-- Outcome of attempting to spawn one command: the process ran and
exited with the given code, or the spawn itself failed (Rust
`Command::status()` returning `Err`). -/
inductive SpawnOutcome
  | ok (exitCode : Nat)
  | err
deriving DecidableEq, Repr

/-- Rust `ExitStatus::success()`: the exit code is zero. -/
def statusSuccess (exitCode : Nat) : Bool := exitCode == 0

/-- Rust `SimpleCommand::execute` (`main.rs:73-85`), with the spawn
outcome passed as an oracle: on a successful spawn the gating rule is
evaluated against the exit status, on a spawn error the result is
`false` (stop the chain) whatever the rule. -/
def SimpleCommand.execute (c : SimpleCommand) (outcome : SpawnOutcome) : Bool :=
  match outcome with
  | SpawnOutcome.ok code =>
    match c.proceed_if with
    | ProceedIf.Any => true
    | ProceedIf.Success => statusSuccess code
    | ProceedIf.Failure => !statusSuccess code
  | SpawnOutcome.err => false

/-- Rust `struct RebuildConfig` (`main.rs:88-92`). -/
structure RebuildConfig where
  commands : List SimpleCommand
  verbatim : Bool
deriving DecidableEq, Repr

/-- The token-scanning loop of Rust `RebuildConfig::new`
(`main.rs:95-130`), with the two mutable locals `commands` and
`single_command` made explicit accumulator arguments.  A bare `;`,
`&&` or `||` closes the buffer with rule `Any`, `Success`, `Failure`
respectively; any other token is appended to the buffer; at end of
input a non-empty buffer is closed with rule `Any`, an empty one is
dropped. -/
def parseAux : List String → List SimpleCommand → List String → Except CommandParseError (List SimpleCommand)
  | [], commands, single_command =>
    if single_command.isEmpty then Except.ok commands
    else
      match SimpleCommand.new single_command ProceedIf.Any with
      | Except.ok cmd => Except.ok (commands ++ [cmd])
      | Except.error e => Except.error e
  | arg :: rest, commands, single_command =>
    if arg = ";" then
      match SimpleCommand.new single_command ProceedIf.Any with
      | Except.ok cmd => parseAux rest (commands ++ [cmd]) []
      | Except.error e => Except.error e
    else if arg = "&&" then
      match SimpleCommand.new single_command ProceedIf.Success with
      | Except.ok cmd => parseAux rest (commands ++ [cmd]) []
      | Except.error e => Except.error e
    else if arg = "||" then
      match SimpleCommand.new single_command ProceedIf.Failure with
      | Except.ok cmd => parseAux rest (commands ++ [cmd]) []
      | Except.error e => Except.error e
    else parseAux rest commands (single_command ++ [arg])

/-- Rust `RebuildConfig::new` (`main.rs:95-130`). -/
def RebuildConfig.new (cmdline : List String) (verbatim : Bool) : Except CommandParseError RebuildConfig :=
  match parseAux cmdline [] [] with
  | Except.ok commands => Except.ok { commands, verbatim }
  | Except.error e => Except.error e

/-- Rust `RebuildConfig::set_filename` (`main.rs:132-143`): clone the
template; when substitution is enabled (`verbatim` false) replace the
placeholder in every command; return the clone.  The `PathBuf` to
string conversion is modelled by taking the path as a string. -/
def RebuildConfig.set_filename (cfg : RebuildConfig) (path : String) : RebuildConfig :=
  if cfg.verbatim then cfg
  else { cfg with commands := cfg.commands.map (fun c => c.set_filename path) }

/-- The loop of Rust `rebuild_sync` (`main.rs:146-152`) instrumented to
count how many commands are actually executed (spawn attempted): the
command at position `i` is executed, and the loop continues to the
next position exactly when `execute` returns `true`.  `env i` is the
spawn outcome of the command at position `i`. -/
def rebuildSyncCount (env : Nat → SpawnOutcome) : Nat → List SimpleCommand → Nat
  | _, [] => 0
  | i, c :: rest =>
    if c.execute (env i) then 1 + rebuildSyncCount env (i + 1) rest else 1

/-- Rust `rebuild_sync` (`main.rs:146-152`), observed through the number
of commands it executes. -/
def rebuild_sync (env : Nat → SpawnOutcome) (cfg : RebuildConfig) : Nat :=
  rebuildSyncCount env 0 cfg.commands

/-- A token is a bare chain separator. -/
def isSep (s : String) : Bool := s == ";" || s == "&&" || s == "||"

/-- The gating rule the parser attaches when closing a buffer at the
given separator token. -/
def ruleOfSep (s : String) : ProceedIf :=
  if s = ";" then ProceedIf.Any
  else if s = "&&" then ProceedIf.Success
  else ProceedIf.Failure

/-- The separator token corresponding to a gating rule. -/
def sepOf : ProceedIf → String
  | ProceedIf.Any => ";"
  | ProceedIf.Success => "&&"
  | ProceedIf.Failure => "||"

/-- Re-flatten a command chain: each command contributes its executable
followed by its arguments, and each non-final command is followed by
the separator corresponding to its gating rule. -/
def flatten : List SimpleCommand → List String
  | [] => []
  | [c] => c.command :: c.args
  | c :: c2 :: rest => (c.command :: c.args) ++ sepOf c.proceed_if :: flatten (c2 :: rest)

/-- No two consecutive tokens are both bare separators. -/
def noDoubled : List String → Bool
  | a :: b :: rest => (!(isSep a && isSep b)) && noDoubled (b :: rest)
  | _ => true

/-- The last token, if any, is not a bare separator. -/
def lastNotSep : List String → Bool
  | [] => true
  | [a] => !isSep a
  | _ :: b :: rest => lastNotSep (b :: rest)

/-- The first token, if any, is not a bare separator. -/
def headNotSep : List String → Bool
  | [] => true
  | a :: _ => !isSep a

/-- A non-empty token sequence with no bare separator in leading,
trailing or doubled position. -/
def goodSeq (ts : List String) : Bool :=
  !ts.isEmpty && headNotSep ts && lastNotSep ts && noDoubled ts

/-- Rust `enum ThreadHandleMessage` (`main.rs:154-157`): a spawned work
handle (identified here by a number) or the drain message `Finish`. -/
inductive ThreadHandleMessage
  | Handle (id : Nat)
  | Finish
deriving DecidableEq, Repr

/-- The manager (reaper) thread loop of Rust `prepare_manager_thread`
(`main.rs:175-183`), applied to the FIFO sequence of messages it
receives from the channel: each `Handle` is joined (recorded, in
order) before the next message is consumed, and `Finish` breaks the
loop.  The result is the list of handle ids joined before exiting. -/
def managerRun : List ThreadHandleMessage → List Nat
  | [] => []
  | ThreadHandleMessage.Handle id :: rest => id :: managerRun rest
  | ThreadHandleMessage.Finish :: _ => []

/-- State of the watch event loop of `main` (`main.rs:242-254`):
`Watching` while the loop keeps iterating, `Stopped` (terminal) once
a remove event breaks out of it. -/
inductive LoopState
  | Watching
  | Stopped
deriving DecidableEq, Repr

/-- One item received from the watcher channel in the event loop:
`DebouncedEvent::Write(path)`, `DebouncedEvent::Remove(_)`, any other
`Ok` event, or a channel-receive error. -/
inductive WatchEvent
  | write (path : String)
  | remove (path : String)
  | other
  | recvError
deriving DecidableEq, Repr

/-- Observable effect of one event-loop iteration: a rebuild dispatched
with a resolved chain, or a warning printed for a receive error. -/
inductive LoopEffect
  | dispatch (cfg : RebuildConfig)
  | warn
deriving DecidableEq, Repr

/-- The state the loop is in after handling one event from `Watching`:
only a remove event leaves `Watching` (`main.rs:242-254`). -/
def loopStep : WatchEvent → LoopState
  | WatchEvent.remove _ => LoopState.Stopped
  | _ => LoopState.Watching

/-- The event loop of `main` (`main.rs:242-254`) run over the incoming
event sequence, collecting its observable effects: a write event
dispatches a rebuild of the template resolved against the written
path and continues; a remove event breaks the loop (events after it
are never received); other events are ignored; a receive error prints
a warning and continues. -/
def runLoop (cfg : RebuildConfig) : List WatchEvent → List LoopEffect
  | [] => []
  | WatchEvent.write p :: rest => LoopEffect.dispatch (cfg.set_filename p) :: runLoop cfg rest
  | WatchEvent.remove _ :: _ => []
  | WatchEvent.other :: rest => runLoop cfg rest
  | WatchEvent.recvError :: rest => LoopEffect.warn :: runLoop cfg rest

/-! Helper lemmas about the parser. -/

theorem isSep_eq_true_iff (s : String) : isSep s = true ↔ s = ";" ∨ s = "&&" ∨ s = "||" := by
  simp [isSep, or_assoc]

theorem isSep_eq_false_iff (s : String) : isSep s = false ↔ s ≠ ";" ∧ s ≠ "&&" ∧ s ≠ "||" := by
  simp [isSep, not_or, and_assoc]

/-- A separator token closes the current buffer with the corresponding
gating rule. -/
theorem parseAux_sep_cons (s : String) (rest : List String) (commands : List SimpleCommand)
    (single : List String) (h : isSep s = true) :
    parseAux (s :: rest) commands single =
      match SimpleCommand.new single (ruleOfSep s) with
      | Except.ok cmd => parseAux rest (commands ++ [cmd]) []
      | Except.error e => Except.error e := by
  rcases (isSep_eq_true_iff s).mp h with rfl | rfl | rfl <;>
    simp [parseAux, ruleOfSep]

/-- A non-separator token is appended to the current buffer. -/
theorem parseAux_nonsep_cons (t : String) (rest : List String) (commands : List SimpleCommand)
    (single : List String) (h : isSep t = false) :
    parseAux (t :: rest) commands single = parseAux rest commands (single ++ [t]) := by
  obtain ⟨h1, h2, h3⟩ := (isSep_eq_false_iff t).mp h
  simp [parseAux, h1, h2, h3]

/-- A block of non-separator tokens is appended wholesale to the buffer. -/
theorem parseAux_nonsep_block (c : List String) :
    ∀ (rest : List String) (commands : List SimpleCommand) (single : List String),
      (∀ t ∈ c, isSep t = false) →
      parseAux (c ++ rest) commands single = parseAux rest commands (single ++ c) := by
  induction c with
  | nil => intro rest commands single _; simp
  | cons t c ih =>
    intro rest commands single hc
    rw [List.cons_append, parseAux_nonsep_cons t _ _ _ (hc t (List.mem_cons_self t c)),
      ih rest commands (single ++ [t]) (fun x hx => hc x (List.mem_cons_of_mem t hx))]
    simp

theorem sepOf_ruleOfSep (s : String) (h : isSep s = true) : sepOf (ruleOfSep s) = s := by
  rcases (isSep_eq_true_iff s).mp h with rfl | rfl | rfl <;> simp [ruleOfSep, sepOf]

/-- Two adjacent separator tokens force the `EmptyCommand` error, from
any parser state. -/
theorem parseAux_doubled (s1 s2 : String) (post : List String) (h1 : isSep s1 = true)
    (h2 : isSep s2 = true) :
    ∀ (pre : List String) (commands : List SimpleCommand) (single : List String),
      parseAux (pre ++ s1 :: s2 :: post) commands single =
        Except.error CommandParseError.EmptyCommand := by
  intro pre
  induction pre with
  | nil =>
    intro commands single
    rw [List.nil_append, parseAux_sep_cons s1 _ _ _ h1]
    cases single with
    | nil => rfl
    | cons a as =>
      show parseAux (s2 :: post) _ [] = _
      rw [parseAux_sep_cons s2 _ _ _ h2]
      rfl
  | cons t pre ih =>
    intro commands single
    rw [List.cons_append]
    by_cases ht : isSep t = true
    · rw [parseAux_sep_cons t _ _ _ ht]
      cases single with
      | nil => rfl
      | cons a as => exact ih _ _
    · rw [parseAux_nonsep_cons t _ _ _ (by simpa using ht)]
      exact ih _ _

theorem noDoubled_tail (a : String) (l : List String) (h : noDoubled (a :: l) = true) :
    noDoubled l = true := by
  cases l with
  | nil => rfl
  | cons b l => exact (Bool.and_eq_true _ _ |>.mp h).2

/-- On a token sequence with no doubled separator and no trailing
separator, the parser succeeds from any state whose buffer may be
arbitrary (but must be non-empty if the sequence opens with a
separator), the produced commands extend the accumulator, and
re-flattening them recovers the buffer followed by the sequence. -/
theorem parseAux_good (ts : List String) :
    ∀ (commands : List SimpleCommand) (single : List String),
      noDoubled ts = true → lastNotSep ts = true → (single = [] → headNotSep ts = true) →
      ∃ cs, parseAux ts commands single = Except.ok (commands ++ cs) ∧
        flatten cs = single ++ ts ∧ (single ++ ts ≠ [] → cs ≠ []) := by
  induction ts with
  | nil =>
    intro commands single _ _ _
    cases single with
    | nil => exact ⟨[], by simp [parseAux], rfl, by simp⟩
    | cons a as =>
      refine ⟨[⟨a, as, ProceedIf.Any⟩], ?_, ?_, ?_⟩
      · simp [parseAux, SimpleCommand.new]
      · simp [flatten]
      · simp
  | cons t rest ih =>
    intro commands single hnd hlns hh
    by_cases ht : isSep t = true
    · cases single with
      | nil =>
        exfalso
        have := hh rfl
        simp [headNotSep, ht] at this
      | cons a as =>
        cases rest with
        | nil => simp [lastNotSep, ht] at hlns
        | cons r rest2 =>
          have hr : isSep r = false := by
            have := (Bool.and_eq_true _ _ |>.mp hnd).1
            simp [ht] at this
            exact this
          obtain ⟨cs, hps, hfl, hne⟩ :=
            ih (commands ++ [⟨a, as, ruleOfSep t⟩]) [] (noDoubled_tail _ _ hnd) hlns
              (fun _ => by simp [headNotSep, hr])
          have hcs : cs ≠ [] := hne (by simp)
          refine ⟨⟨a, as, ruleOfSep t⟩ :: cs, ?_, ?_, ?_⟩
          · rw [parseAux_sep_cons t _ _ _ ht]
            show parseAux (r :: rest2) (commands ++ [⟨a, as, ruleOfSep t⟩]) [] = _
            rw [hps]
            simp
          · cases cs with
            | nil => exact absurd rfl hcs
            | cons c2 cs2 =>
              show (a :: as) ++ sepOf (ruleOfSep t) :: flatten (c2 :: cs2) = (a :: as) ++ t :: r :: rest2
              rw [sepOf_ruleOfSep t ht, hfl]
              simp
          · intro _; simp
    · have ht2 : isSep t = false := by simpa using ht
      have hlns2 : lastNotSep rest = true := by
        cases rest with
        | nil => rfl
        | cons r rest2 => exact hlns
      obtain ⟨cs, hps, hfl, hne⟩ :=
        ih commands (single ++ [t]) (noDoubled_tail _ _ hnd) hlns2 (by simp)
      refine ⟨cs, ?_, ?_, ?_⟩
      · rw [parseAux_nonsep_cons t _ _ _ ht2]
        exact hps
      · rw [hfl]; simp
      · intro _
        exact hne (by simp)

/-! Helper lemmas about the executor. -/

/-- Position `n` is reached by the executor's loop exactly when it is
in range and every earlier command's gate evaluated to continue. -/
theorem lt_rebuildSyncCount_iff (env : Nat → SpawnOutcome) (cs : List SimpleCommand) :
    ∀ (i n : Nat), n < rebuildSyncCount env i cs ↔
      n < cs.length ∧ ∀ k, k < n → ∃ c, cs[k]? = some c ∧ c.execute (env (i + k)) = true := by
  induction cs with
  | nil => intro i n; simp [rebuildSyncCount]
  | cons c rest ih =>
    intro i n
    cases n with
    | zero =>
      constructor
      · intro _
        exact ⟨Nat.succ_pos _, fun k hk => absurd hk (Nat.not_lt_zero k)⟩
      · intro _
        show 0 < rebuildSyncCount env i (c :: rest)
        unfold rebuildSyncCount
        split <;> omega
    | succ m =>
      show m + 1 < (if c.execute (env i) then 1 + rebuildSyncCount env (i + 1) rest else 1) ↔ _
      by_cases hg : c.execute (env i) = true
      · rw [if_pos hg]
        constructor
        · intro h
          obtain ⟨hlen, hall⟩ := (ih (i + 1) m).mp (by omega)
          refine ⟨by simpa using Nat.succ_lt_succ hlen, ?_⟩
          intro k hk
          cases k with
          | zero => exact ⟨c, by simp, by simpa using hg⟩
          | succ k2 =>
            obtain ⟨d, hd, hde⟩ := hall k2 (by omega)
            refine ⟨d, by simpa using hd, ?_⟩
            have harith : i + 1 + k2 = i + (k2 + 1) := by omega
            rwa [harith] at hde
        · rintro ⟨hlen, hall⟩
          have hm : m < rebuildSyncCount env (i + 1) rest := by
            refine (ih (i + 1) m).mpr ⟨by simpa using hlen, ?_⟩
            intro k hk
            obtain ⟨d, hd, hde⟩ := hall (k + 1) (by omega)
            refine ⟨d, by simpa using hd, ?_⟩
            have harith : i + (k + 1) = i + 1 + k := by omega
            rwa [harith] at hde
          omega
      · rw [if_neg hg]
        constructor
        · intro h; omega
        · rintro ⟨_, hall⟩
          obtain ⟨d, hd, hde⟩ := hall 0 (Nat.succ_pos m)
          simp at hd
          subst hd
          rw [Nat.add_zero] at hde
          exact absurd hde hg

/-- On a successful spawn, `execute` returns `true` exactly when the
gating rule permits continuation for the observed exit status. -/
theorem SimpleCommand.execute_ok_iff (c : SimpleCommand) (s : Nat) :
    c.execute (SpawnOutcome.ok s) = true ↔
      (c.proceed_if = ProceedIf.Any ∨
       (c.proceed_if = ProceedIf.Success ∧ s = 0) ∨
       (c.proceed_if = ProceedIf.Failure ∧ s ≠ 0)) := by
  rcases hc : c.proceed_if with _ | _ | _ <;>
    simp [SimpleCommand.execute, hc, statusSuccess]

/-! Helper lemmas about placeholder substitution. -/

theorem replaceBraces_cons_of_ne (rep : List Char) (c : Char) (l : List Char) (h : c ≠ lbrace) :
    replaceBraces rep (c :: l) = c :: replaceBraces rep l := by
  cases l with
  | nil => rfl
  | cons b l2 =>
    show (if c = lbrace ∧ b = rbrace then _ else _) = _
    rw [if_neg (fun hc => h hc.1)]

theorem replaceBraces_append_of_no_lbrace (rep : List Char) (u t : List Char) (h : lbrace ∉ u) :
    replaceBraces rep (u ++ t) = u ++ replaceBraces rep t := by
  induction u with
  | nil => simp
  | cons c u2 ih =>
    have hc : c ≠ lbrace := fun hcc => h (by rw [hcc]; exact List.mem_cons_self _ _)
    have hu2 : lbrace ∉ u2 := fun hm => h (List.mem_cons_of_mem _ hm)
    rw [List.cons_append, replaceBraces_cons_of_ne rep c _ hc, ih hu2]
    rfl

theorem replaceBraces_no_lbrace (rep : List Char) (l : List Char) (h : lbrace ∉ l) :
    replaceBraces rep l = l := by
  have := replaceBraces_append_of_no_lbrace rep l [] h
  simpa [replaceBraces] using this

theorem replaceBraces_placeholder (rep : List Char) (t : List Char) :
    replaceBraces rep (lbrace :: rbrace :: t) = rep ++ replaceBraces rep t := by
  show (if lbrace = lbrace ∧ rbrace = rbrace then _ else _) = _
  rw [if_pos ⟨rfl, rfl⟩]

/-! Claim theorems. -/

/-- C1 counterexample: the claim says every token sequence ending in a
bare separator fails with `EmptyCommand`, but `["echo", ";"]` parses
successfully: the trailing `;` closes the non-empty buffer `["echo"]`
and the resulting empty final buffer is silently dropped. -/
theorem trailing_sep_accepted :
    RebuildConfig.new ["echo", ";"] false ≠
      Except.error CommandParseError.EmptyCommand := by
  intro h
  have h2 : RebuildConfig.new ["echo", ";"] false =
      Except.ok { commands := [⟨"echo", [], ProceedIf.Any⟩], verbatim := false } := rfl
  exact Except.noConfusion (h2.symm.trans h)

/-- C1 amended: a trailing bare separator does not by itself make
parsing fail; for a non-empty run of non-separator tokens followed by
one trailing separator, parsing succeeds and yields a single command
whose gating rule corresponds to the trailing separator.  (Parsing a
sequence ending in a separator fails with `EmptyCommand` only when
some closed buffer is empty, e.g. a lone separator or a doubled one.) -/
theorem trailing_sep_parses_ok (c0 : String) (crest : List String) (s : String) (vb : Bool)
    (h0 : isSep c0 = false) (hrest : ∀ t ∈ crest, isSep t = false) (hs : isSep s = true) :
    RebuildConfig.new ((c0 :: crest) ++ [s]) vb =
      Except.ok { commands := [⟨c0, crest, ruleOfSep s⟩], verbatim := vb } := by
  unfold RebuildConfig.new
  rw [parseAux_nonsep_block (c0 :: crest) [s] [] []
    (fun t htm => by rcases List.mem_cons.mp htm with rfl | hm; exact h0; exact hrest t hm)]
  rw [List.nil_append, parseAux_sep_cons s [] [] (c0 :: crest) hs]
  rfl

theorem trailing_sep_parses_ok_witness :
    isSep "echo" = false ∧ isSep ";" = true ∧
    RebuildConfig.new (("echo" :: []) ++ [";"]) false =
      Except.ok { commands := [⟨"echo", [], ruleOfSep ";"⟩], verbatim := false } :=
  ⟨by decide, by decide,
   trailing_sep_parses_ok "echo" [] ";" false (by decide) (by simp) (by decide)⟩

/-- C2: with the first command of a two-command chain spawned
successfully and exiting with status `s`, the second command runs
exactly when the first command's gating rule permits it (`Any` always,
`Success` iff `s = 0`, `Failure` iff `s ≠ 0`); and in general the
executor reaches position `j + 1` exactly when it reached position
`j`, a position `j + 1` exists, and command `j`'s gate evaluated to
continue. -/
theorem chain_gating_semantics (c0 c1 : SimpleCommand) (vb : Bool) (env : Nat → SpawnOutcome)
    (s : Nat) (h : env 0 = SpawnOutcome.ok s) :
    (1 < rebuild_sync env { commands := [c0, c1], verbatim := vb } ↔
      (c0.proceed_if = ProceedIf.Any ∨
       (c0.proceed_if = ProceedIf.Success ∧ s = 0) ∨
       (c0.proceed_if = ProceedIf.Failure ∧ s ≠ 0))) ∧
    (∀ (cs : List SimpleCommand) (j : Nat) (c : SimpleCommand), cs[j]? = some c →
      (j + 1 < rebuildSyncCount env 0 cs ↔
        (j < rebuildSyncCount env 0 cs ∧ j + 1 < cs.length ∧ c.execute (env j) = true))) := by
  constructor
  · rw [show rebuild_sync env { commands := [c0, c1], verbatim := vb } =
      rebuildSyncCount env 0 [c0, c1] from rfl]
    rw [lt_rebuildSyncCount_iff env [c0, c1] 0 1]
    constructor
    · rintro ⟨_, hall⟩
      obtain ⟨d, hd, hde⟩ := hall 0 Nat.one_pos
      simp at hd
      subst hd
      rw [Nat.add_zero, h] at hde
      exact (SimpleCommand.execute_ok_iff c0 s).mp hde
    · intro hg
      refine ⟨by simp, ?_⟩
      intro k hk
      have hk0 : k = 0 := by omega
      subst hk0
      refine ⟨c0, by simp, ?_⟩
      rw [Nat.add_zero, h]
      exact (SimpleCommand.execute_ok_iff c0 s).mpr hg
  · intro cs j c hc
    have h1 := lt_rebuildSyncCount_iff env cs 0 (j + 1)
    have h2 := lt_rebuildSyncCount_iff env cs 0 j
    constructor
    · intro hlt
      obtain ⟨hlen, hall⟩ := h1.mp hlt
      refine ⟨h2.mpr ⟨by omega, fun k hk => hall k (by omega)⟩, hlen, ?_⟩
      obtain ⟨d, hd, hde⟩ := hall j (by omega)
      rw [hc] at hd
      obtain rfl : c = d := Option.some.inj hd
      rwa [Nat.zero_add] at hde
    · rintro ⟨hj, hlen, hex⟩
      refine h1.mpr ⟨hlen, fun k hk => ?_⟩
      rcases Nat.lt_or_ge k j with hkj | hkj
      · exact (h2.mp hj).2 k hkj
      · have hk0 : k = j := by omega
        subst hk0
        exact ⟨c, hc, by rwa [Nat.zero_add]⟩

theorem chain_gating_semantics_witness :
    ((fun _ => SpawnOutcome.ok 0) 0 = SpawnOutcome.ok 0) ∧
    ((1 < rebuild_sync (fun _ => SpawnOutcome.ok 0)
        { commands := [⟨"a", [], ProceedIf.Success⟩, ⟨"b", [], ProceedIf.Any⟩],
          verbatim := false } ↔
      ((SimpleCommand.mk "a" [] ProceedIf.Success).proceed_if = ProceedIf.Any ∨
       ((SimpleCommand.mk "a" [] ProceedIf.Success).proceed_if = ProceedIf.Success ∧ 0 = 0) ∨
       ((SimpleCommand.mk "a" [] ProceedIf.Success).proceed_if = ProceedIf.Failure ∧ 0 ≠ 0))) ∧
     (∀ (cs : List SimpleCommand) (j : Nat) (c : SimpleCommand), cs[j]? = some c →
      (j + 1 < rebuildSyncCount (fun _ => SpawnOutcome.ok 0) 0 cs ↔
        (j < rebuildSyncCount (fun _ => SpawnOutcome.ok 0) 0 cs ∧ j + 1 < cs.length ∧
          c.execute ((fun _ => SpawnOutcome.ok 0) j) = true)))) :=
  ⟨rfl, chain_gating_semantics ⟨"a", [], ProceedIf.Success⟩ ⟨"b", [], ProceedIf.Any⟩ false
    (fun _ => SpawnOutcome.ok 0) 0 rfl⟩

/-- C3: a non-empty token sequence with no bare separator in leading,
trailing or doubled position parses successfully, and re-flattening
the resulting chain (each command's executable and arguments, with
each non-final command followed by the separator of its gating rule)
reproduces the original sequence exactly. -/
theorem parse_flatten_roundtrip (ts : List String) (vb : Bool) (h : goodSeq ts = true) :
    ∃ cfg, RebuildConfig.new ts vb = Except.ok cfg ∧
      flatten cfg.commands = ts ∧ cfg.verbatim = vb := by
  have h2 := h
  unfold goodSeq at h2
  rw [Bool.and_eq_true, Bool.and_eq_true, Bool.and_eq_true] at h2
  obtain ⟨⟨⟨_, hhead⟩, hlast⟩, hnd⟩ := h2
  obtain ⟨cs, hps, hfl, _⟩ := parseAux_good ts [] [] hnd hlast (fun _ => hhead)
  refine ⟨{ commands := cs, verbatim := vb }, ?_, by simpa using hfl, rfl⟩
  unfold RebuildConfig.new
  rw [hps]
  simp

theorem parse_flatten_roundtrip_witness :
    goodSeq ["echo", "hi", "&&", "make"] = true ∧
    ∃ cfg, RebuildConfig.new ["echo", "hi", "&&", "make"] false = Except.ok cfg ∧
      flatten cfg.commands = ["echo", "hi", "&&", "make"] ∧ cfg.verbatim = false :=
  ⟨by decide, parse_flatten_roundtrip ["echo", "hi", "&&", "make"] false (by decide)⟩

/-- C4: `execute` returns `false` on a spawn error whatever the gating
rule, so when the spawn of the command at position `p` fails the
executor stops there: no command at a position after `p` is ever
executed (the executed positions are at most `0..p`). -/
theorem spawn_error_stops_chain (cfg : RebuildConfig) (env : Nat → SpawnOutcome) (p : Nat)
    (h : env p = SpawnOutcome.err) :
    (∀ c : SimpleCommand, c.execute SpawnOutcome.err = false) ∧
    rebuild_sync env cfg ≤ p + 1 := by
  refine ⟨fun c => rfl, ?_⟩
  by_contra hlt
  push_neg at hlt
  obtain ⟨_, hall⟩ := (lt_rebuildSyncCount_iff env cfg.commands 0 (p + 1)).mp hlt
  obtain ⟨c, _, hce⟩ := hall p (by omega)
  rw [Nat.zero_add, h] at hce
  exact absurd hce (by simp [SimpleCommand.execute])

theorem spawn_error_stops_chain_witness :
    ((fun _ => SpawnOutcome.err) 0 = SpawnOutcome.err) ∧
    ((∀ c : SimpleCommand, c.execute SpawnOutcome.err = false) ∧
     rebuild_sync (fun _ => SpawnOutcome.err)
       { commands := [⟨"a", [], ProceedIf.Any⟩, ⟨"b", [], ProceedIf.Any⟩],
         verbatim := false } ≤ 0 + 1) :=
  ⟨rfl, spawn_error_stops_chain
    { commands := [⟨"a", [], ProceedIf.Any⟩, ⟨"b", [], ProceedIf.Any⟩], verbatim := false }
    (fun _ => SpawnOutcome.err) 0 rfl⟩

/-- C5: a token sequence beginning with a bare separator, or containing
two consecutive bare separators, fails to parse with `EmptyCommand`:
the buffer being closed at that separator is empty. -/
theorem leading_or_doubled_sep_empty_command (vb : Bool) :
    (∀ (s : String) (rest : List String), isSep s = true →
      RebuildConfig.new (s :: rest) vb = Except.error CommandParseError.EmptyCommand) ∧
    (∀ (pre : List String) (s1 s2 : String) (post : List String),
      isSep s1 = true → isSep s2 = true →
      RebuildConfig.new (pre ++ s1 :: s2 :: post) vb =
        Except.error CommandParseError.EmptyCommand) := by
  constructor
  · intro s rest hs
    unfold RebuildConfig.new
    rw [parseAux_sep_cons s rest [] [] hs]
    rfl
  · intro pre s1 s2 post h1 h2
    unfold RebuildConfig.new
    rw [parseAux_doubled s1 s2 post h1 h2 pre [] []]

theorem leading_or_doubled_sep_empty_command_witness :
    isSep ";" = true ∧ isSep "&&" = true ∧ isSep "||" = true ∧
    RebuildConfig.new (";" :: ["x"]) false = Except.error CommandParseError.EmptyCommand ∧
    RebuildConfig.new (["a"] ++ "&&" :: "||" :: ["b"]) false =
      Except.error CommandParseError.EmptyCommand :=
  ⟨by decide, by decide, by decide,
   (leading_or_doubled_sep_empty_command false).1 ";" ["x"] (by decide),
   (leading_or_doubled_sep_empty_command false).2 ["a"] "&&" "||" ["b"] (by decide) (by decide)⟩

/-- C6: with substitution enabled (`verbatim` false), resolving the
template keeps the flag and maps each command to one with the same
executable name and gating rule, every argument rewritten by the
placeholder replacement; and that replacement rewrites every
occurrence of the two-character placeholder within an argument, not
just the first (shown on an argument with two occurrences surrounded
by brace-free segments).  The template itself is a value and is not
mutated: resolution returns a new `RebuildConfig`. -/
theorem set_filename_substitution (cfg : RebuildConfig) (path : String) (h : cfg.verbatim = false)
    (u v w : List Char) (hu : lbrace ∉ u) (hv : lbrace ∉ v) (hw : lbrace ∉ w) :
    (cfg.set_filename path).verbatim = false ∧
    (cfg.set_filename path).commands =
      cfg.commands.map (fun c =>
        SimpleCommand.mk c.command (c.args.map (replaceArg path)) c.proceed_if) ∧
    replaceBraces path.data (u ++ (lbrace :: rbrace :: (v ++ (lbrace :: rbrace :: w)))) =
      u ++ (path.data ++ (v ++ (path.data ++ w))) := by
  refine ⟨?_, ?_, ?_⟩
  · simp [RebuildConfig.set_filename, h]
  · simp [RebuildConfig.set_filename, h, SimpleCommand.set_filename]
  · rw [replaceBraces_append_of_no_lbrace _ _ _ hu, replaceBraces_placeholder,
      replaceBraces_append_of_no_lbrace _ _ _ hv, replaceBraces_placeholder,
      replaceBraces_no_lbrace _ _ hw]

theorem set_filename_substitution_witness :
    ((RebuildConfig.mk [⟨"cc", ["o"], ProceedIf.Any⟩] false).verbatim = false ∧
     lbrace ∉ (['a'] : List Char) ∧ lbrace ∉ ([] : List Char) ∧
     lbrace ∉ (['b'] : List Char)) ∧
    (((RebuildConfig.mk [⟨"cc", ["o"], ProceedIf.Any⟩] false).set_filename "p").verbatim = false ∧
     ((RebuildConfig.mk [⟨"cc", ["o"], ProceedIf.Any⟩] false).set_filename "p").commands =
       (RebuildConfig.mk [⟨"cc", ["o"], ProceedIf.Any⟩] false).commands.map (fun c =>
         SimpleCommand.mk c.command (c.args.map (replaceArg "p")) c.proceed_if) ∧
     replaceBraces "p".data
         (['a'] ++ (lbrace :: rbrace :: (([] : List Char) ++ (lbrace :: rbrace :: ['b'])))) =
       ['a'] ++ ("p".data ++ (([] : List Char) ++ ("p".data ++ ['b'])))) :=
  ⟨⟨rfl, by decide, by decide, by decide⟩,
   set_filename_substitution (RebuildConfig.mk [⟨"cc", ["o"], ProceedIf.Any⟩] false) "p" rfl
     ['a'] [] ['b'] (by decide) (by decide) (by decide)⟩

/-- C7: with substitution disabled (`verbatim` true), resolving the
template returns it unchanged, whatever the path and whatever the
arguments contain. -/
theorem set_filename_verbatim_id (cfg : RebuildConfig) (path : String) (h : cfg.verbatim = true) :
    cfg.set_filename path = cfg := by
  simp [RebuildConfig.set_filename, h]

theorem set_filename_verbatim_id_witness :
    (RebuildConfig.mk [⟨"cc", [String.mk [lbrace, rbrace]], ProceedIf.Any⟩] true).verbatim =
      true ∧
    (RebuildConfig.mk [⟨"cc", [String.mk [lbrace, rbrace]], ProceedIf.Any⟩]
        true).set_filename "p" =
      RebuildConfig.mk [⟨"cc", [String.mk [lbrace, rbrace]], ProceedIf.Any⟩] true :=
  ⟨rfl, set_filename_verbatim_id
    (RebuildConfig.mk [⟨"cc", [String.mk [lbrace, rbrace]], ProceedIf.Any⟩] true) "p" rfl⟩

/-- C8: a remove event moves the loop to the terminal `Stopped` state
and no event received after it — in particular no further write —
produces any effect (the effects of a trace are those of its prefix
before the remove); a write event dispatches the resolved chain and
keeps the loop in `Watching`; other event kinds are ignored; a
receive error emits a warning and keeps the loop in `Watching`. -/
theorem remove_event_stops_loop (cfg : RebuildConfig) (p q : String)
    (pre post rest : List WatchEvent) :
    runLoop cfg (pre ++ WatchEvent.remove p :: post) = runLoop cfg pre ∧
    loopStep (WatchEvent.remove p) = LoopState.Stopped ∧
    loopStep (WatchEvent.write q) = LoopState.Watching ∧
    loopStep WatchEvent.other = LoopState.Watching ∧
    loopStep WatchEvent.recvError = LoopState.Watching ∧
    runLoop cfg (WatchEvent.write q :: rest) =
      LoopEffect.dispatch (cfg.set_filename q) :: runLoop cfg rest ∧
    runLoop cfg (WatchEvent.other :: rest) = runLoop cfg rest ∧
    runLoop cfg (WatchEvent.recvError :: rest) = LoopEffect.warn :: runLoop cfg rest := by
  refine ⟨?_, rfl, rfl, rfl, rfl, rfl, rfl, rfl⟩
  induction pre with
  | nil => rfl
  | cons e pre ih =>
    cases e with
    | write q2 => simpa [runLoop] using ih
    | remove q2 => rfl
    | other => simpa [runLoop] using ih
    | recvError => simpa [runLoop] using ih

/-- C9: the reaper joins exactly the handles queued on the manager
channel before the drain message, in FIFO submission order (each
joined before the next message is consumed), and exits at the drain
message, ignoring anything after it; `main` joins the reaper before
the process exits, so every such handle is joined before exit. -/
theorem manager_drains_fifo (ids : List Nat) (post : List ThreadHandleMessage) :
    managerRun (ids.map ThreadHandleMessage.Handle ++ ThreadHandleMessage.Finish :: post) =
      ids := by
  induction ids with
  | nil => rfl
  | cons i is ih => simpa [managerRun] using ih

/-- C10: the empty token sequence parses successfully into a chain of
zero commands (no `EmptyCommand` error), and executing that empty
chain executes no command. -/
theorem empty_cmdline_parses_empty_chain (vb : Bool) (env : Nat → SpawnOutcome) :
    RebuildConfig.new [] vb = Except.ok { commands := [], verbatim := vb } ∧
    rebuild_sync env { commands := [], verbatim := vb } = 0 :=
  ⟨rfl, rfl⟩
